import Mathlib

/-!
Shallow embedding of the answer-application and session-state engine of the
twitch-plays-crosswords web service (src/web/rooms.py, src/crosswords/puzzle.py),
together with theorems checking its natural-language specification.

Modelling conventions:
* Python strings are Lean `String`s; character-level work is done on `List Char`.
  Character classes (`str.isspace`, `str.isdigit`, `str.lower`) are modelled with
  Lean's ASCII `Char` operations, faithful for ASCII inputs.
* Python `int(s)` (optional surrounding whitespace, optional sign, decimal digits
  optionally separated by single underscores) is modelled by `pyIntChars`.
* Timestamps (`datetime.datetime`) are integer microsecond counts; `timedelta`
  subtraction followed by `int(delta.total_seconds())` is integer division by
  10^6 truncating toward zero (`Int.div`).
* Fallible Python code (functions that can raise) returns `Option` / an explicit
  result type; a raised exception is modelled by `none` / an `error` constructor.
* The puzzle-store helper `puzzles.get_answer_cells` and the serialization
  helpers `Puzzle.to_dict` / `Puzzle.from_dict` are not part of the repository
  sources under verification; they are modelled from the spec where used.
-/

/-- The decimal digit character for `d % 10`-style arguments (`0 ≤ d ≤ 9`). -/
def digitChar : Nat → Char
  | 0 => '0' | 1 => '1' | 2 => '2' | 3 => '3' | 4 => '4'
  | 5 => '5' | 6 => '6' | 7 => '7' | 8 => '8' | _ => '9'

/-- Numeric value of a decimal digit character. -/
def charVal (c : Char) : Nat := c.toNat - 48

/-- Decimal digit list of a natural number (models Python `str` on a
non-negative `int`). -/
def natToDigits (n : Nat) : List Char :=
  if _h : n < 10 then [digitChar n]
  else natToDigits (n / 10) ++ [digitChar (n % 10)]
decreasing_by
  exact Nat.div_lt_self (by omega) (by omega)

/-- Decimal character list of an integer (models Python `str` on an `int`). -/
def intToDigits (i : Int) : List Char :=
  if i < 0 then '-' :: natToDigits i.natAbs else natToDigits i.natAbs

/-- Numeric value accumulated over a digit list. -/
def digitsVal (cs : List Char) : Nat :=
  cs.foldl (fun a c => a * 10 + charVal c) 0

/-- Digit/underscore scanning loop of Python `int(s)` after the first digit:
digits may be separated by single underscores; an underscore must be followed
by a digit. -/
def pyDigitsGo (acc : Nat) : List Char → Option Nat
  | [] => some acc
  | c :: cs =>
    if c = '_' then
      match cs with
      | c2 :: cs2 => if c2.isDigit then pyDigitsGo (acc * 10 + charVal c2) cs2 else none
      | [] => none
    else if c.isDigit then pyDigitsGo (acc * 10 + charVal c) cs
    else none

/-- The digit part of Python `int(s)`: at least one digit, single underscores
allowed strictly between digits. -/
def pyDigits : List Char → Option Nat
  | [] => none
  | c :: cs => if c.isDigit then pyDigitsGo (charVal c) cs else none

/-- Python `str.strip()`: remove leading and trailing whitespace. -/
def stripChars (cs : List Char) : List Char :=
  ((cs.dropWhile Char.isWhitespace).reverse.dropWhile Char.isWhitespace).reverse

/-- Sign handling of Python `int(s)`, applied to the stripped character list:
optional `+`/`-` sign, then the digit/underscore grammar. -/
def pyIntCore : List Char → Option Int
  | [] => none
  | c :: rest =>
    if c = '+' then (pyDigits rest).map Int.ofNat
    else if c = '-' then (pyDigits rest).map (fun n => -(Int.ofNat n))
    else (pyDigits (c :: rest)).map Int.ofNat

/-- Python `int(s)` on a string: strip whitespace, optional `+`/`-` sign,
then the digit/underscore grammar.  `none` models a raised `ValueError`. -/
def pyIntChars (cs : List Char) : Option Int :=
  pyIntCore (stripChars cs)

/-- Split a list into its leading part and final element. -/
def splitLast : List Char → Option (List Char × Char)
  | [] => none
  | [c] => some ([], c)
  | c :: c2 :: cs => (splitLast (c2 :: cs)).map (fun p => (c :: p.1, p.2))

/-- `parse_clue` from rooms.py, on character lists: strip the input, reject the
empty string, convert everything but the last character with Python `int`, and
lowercase the last character, which must be `a` or `d`.  `none` models the
`(None, None)` failure return. -/
def parse_clue_chars (cs : List Char) : Option (Int × Char) :=
  match splitLast (stripChars cs) with
  | none => none
  | some (front, last) =>
    match pyIntChars front with
    | none => none
    | some n =>
      let d := last.toLower
      if d = 'a' ∨ d = 'd' then some (n, d) else none

/-- `parse_clue` from rooms.py on a string input. -/
def parse_clue (clue : String) : Option (Int × Char) :=
  parse_clue_chars clue.toList

/-- `cells[-1] += c` from `parse_answer`: append a character to the last entry
of the accumulated cell list.  `none` models the `IndexError` raised when the
list is empty. -/
def appendLast : List String → Char → Option (List String)
  | [], _ => none
  | [s], c => some [s.push c]
  | s :: s2 :: rest, c => (appendLast (s2 :: rest) c).map (fun l => s :: l)

/-- The character loop of `parse_answer` from rooms.py.  State: accumulated
cell values and the `inParens` flag.  Branch order follows the source:
whitespace is skipped; `)` inside parentheses closes the group; any other
character inside parentheses extends the last cell; `(` opens a group with a
fresh empty cell; otherwise the character becomes its own cell, with `.`
becoming the empty string. -/
def parse_answer_run : List Char → List String → Bool → Option (List String × Bool)
  | [], cells, inParens => some (cells, inParens)
  | c :: cs, cells, inParens =>
    if c.isWhitespace then parse_answer_run cs cells inParens
    else if inParens && c == ')' then parse_answer_run cs cells false
    else if inParens then
      match appendLast cells c with
      | none => none
      | some cells2 => parse_answer_run cs cells2 inParens
    else if c == '(' then parse_answer_run cs (cells ++ [""]) true
    else parse_answer_run cs (cells ++ [if c == '.' then "" else String.mk [c]]) inParens

/-- `parse_answer` from rooms.py: parse an answer string into the list of cell
values.  `none` models a raised exception (never actually reached). -/
def parse_answer (answer : String) : Option (List String) :=
  (parse_answer_run answer.toList [] false).map Prod.fst

/-- A session grid: rows of cells; `none` is a block cell, `some s` a fillable
cell currently holding `s` (empty string = blank). -/
abbrev Grid := List (List (Option String))

/-- `Puzzle` from crosswords/puzzle.py.  Clue maps are insertion-ordered
association lists, as Python dicts are; the publication date is kept as an
opaque string. -/
structure Puzzle where
  rows : Nat
  cols : Nat
  title : String
  publisher : String
  published : String
  author : String
  cells : Grid
  cell_clue_numbers : List (List Int)
  cell_circles : List (List Bool)
  across_clues : List (Int × String)
  down_clues : List (Int × String)
deriving DecidableEq, Repr

/-- `Room` from web/rooms.py.  `last_start_time` is an optional timestamp in
microseconds; the filled maps are insertion-ordered association lists. -/
structure Room where
  play_pause_state : String
  puzzle : Puzzle
  cells : Grid
  across_clues_filled : List (Int × Bool)
  down_clues_filled : List (Int × Bool)
  last_start_time : Option Int
  total_time_secs : Int
deriving DecidableEq, Repr

/-- `room.cells[y][x]` (in-bounds reads only occur with in-bounds coordinates;
out-of-bounds reads default to a block). -/
def getCell (g : Grid) (x y : Nat) : Option String :=
  (g.getD y []).getD x none

/-- `room.cells[y][x] = value` (writes only occur at in-bounds coordinates;
`List.set` ignores out-of-bounds indices). -/
def setCell (g : Grid) (x y : Nat) (v : String) : Grid :=
  g.set y ((g.getD y []).set x (some v))

/-- (x, y) addresses a real cell of the grid. -/
def inBounds (g : Grid) (x y : Nat) : Prop :=
  y < g.length ∧ x < (g.getD y []).length

instance (g : Grid) (x y : Nat) : Decidable (inBounds g x y) := by
  unfold inBounds; infer_instance

/-- Python dict update `m[k] = v` on an association list: replace the value at
an existing key in place, else append the new binding. -/
def setAssoc : List (Int × Bool) → Int → Bool → List (Int × Bool)
  | [], k, v => [(k, v)]
  | (k0, v0) :: rest, k, v =>
    if k0 = k then (k0, v) :: rest else (k0, v0) :: setAssoc rest k v

/-- Python dict read `m[k]` on an association list. -/
def lookupAssoc : List (Int × Bool) → Int → Option Bool
  | [], _ => none
  | (k0, v0) :: rest, k => if k0 = k then some v0 else lookupAssoc rest k

/-- The answer-writing loop of `apply_answer`: for each (value, (x, y)) pair,
write the value when clearing is allowed or the value is non-empty. -/
def write_cells (g : Grid) (pairs : List (String × Nat × Nat)) (allow_clearing : Bool) : Grid :=
  pairs.foldl
    (fun acc pr => if allow_clearing || pr.1 != "" then setCell acc pr.2.1 pr.2.2 pr.1 else acc)
    g

/-- `all(room.cells[y][x] != "" for (x, y) in ...)`: every resolved cell of a
clue is non-blank (a block cell `none` also compares unequal to `""`, as `None`
does in Python). -/
def allCellsNonBlank (cells : Grid) (coords : List (Nat × Nat)) : Bool :=
  coords.all (fun p => getCell cells p.1 p.2 != some "")

/-- The filled-flag recomputation loop shared by `apply_answer` and
`clear_incorrect_cells`: for every clue number of the puzzle (in one
direction), set its flag from the current grid. -/
def recompute_filled (cells : Grid) (keys : List Int) (resolve : Int → List (Nat × Nat))
    (m : List (Int × Bool)) : List (Int × Bool) :=
  keys.foldl (fun acc num => setAssoc acc num (allCellsNonBlank cells (resolve num))) m

/-- `int(delta.total_seconds())` for a timedelta of `now - start` microseconds:
division by 10^6 truncating toward zero, as Python `int()` truncates floats. -/
def elapsedSecs (now start : Int) : Int :=
  Int.tdiv (now - start) 1000000

/-- Result of `apply_answer`: `rejected` models the early `return None` paths
(carrying the untouched room), `ok` a normal return of the updated room, and
`error` a raised exception (carrying the in-memory room at the raise point). -/
inductive ApplyResult where
  | rejected : Room → ApplyResult
  | ok : Room → ApplyResult
  | error : Room → ApplyResult
deriving DecidableEq, Repr

/-- The in-memory room state when `apply_answer` exits, in all three cases. -/
def exit_room : ApplyResult → Room
  | ApplyResult.rejected r => r
  | ApplyResult.ok r => r
  | ApplyResult.error r => r

/-- Whether an `apply_answer` call raised an exception. -/
def isError : ApplyResult → Bool
  | ApplyResult.error _ => true
  | _ => false

/-- The grid after the answer-writing loop of `apply_answer`. -/
def aa_cells2 (gac : Puzzle → Int → Char → List (Nat × Nat)) (room : Room)
    (num : Int) (direction : Char) (vals : List String) (allow_clearing : Bool) : Grid :=
  write_cells room.cells (vals.zip (gac room.puzzle num direction)) allow_clearing

/-- The in-memory room after `apply_answer` has written the answer and
recomputed every filled flag (the state before the completion check). -/
def aa_room2 (gac : Puzzle → Int → Char → List (Nat × Nat)) (room : Room)
    (num : Int) (direction : Char) (vals : List String) (allow_clearing : Bool) : Room :=
  { room with
    cells := aa_cells2 gac room num direction vals allow_clearing,
    across_clues_filled :=
      recompute_filled (aa_cells2 gac room num direction vals allow_clearing)
        (room.puzzle.across_clues.map Prod.fst)
        (fun k => gac room.puzzle k 'a') room.across_clues_filled,
    down_clues_filled :=
      recompute_filled (aa_cells2 gac room num direction vals allow_clearing)
        (room.puzzle.down_clues.map Prod.fst)
        (fun k => gac room.puzzle k 'd') room.down_clues_filled }

/-- The body of `apply_answer` after both parses succeeded: the length check,
the write/recompute stage, and the completion check with its timer update. -/
def apply_answer_core (gac : Puzzle → Int → Char → List (Nat × Nat)) (room : Room)
    (num : Int) (direction : Char) (vals : List String)
    (allow_clearing : Bool) (now : Int) : ApplyResult :=
  if vals.length ≠ (gac room.puzzle num direction).length then ApplyResult.rejected room
  else if (aa_room2 gac room num direction vals allow_clearing).cells = room.puzzle.cells then
    match room.last_start_time with
    | none => ApplyResult.error (aa_room2 gac room num direction vals allow_clearing)
    | some t =>
      ApplyResult.ok { aa_room2 gac room num direction vals allow_clearing with
        play_pause_state := "complete",
        last_start_time := none,
        total_time_secs := room.total_time_secs + elapsedSecs now t }
  else ApplyResult.ok (aa_room2 gac room num direction vals allow_clearing)

/-- `apply_answer` from rooms.py.  `gac` is the puzzle store's coordinate
mapping `puzzles.get_answer_cells` (modelled from the spec: it is an external
collaborator resolving (clue number, direction) to the ordered cell
coordinates of that answer).  The store write `set_room` is outside the engine
and omitted; the returned room is the value the caller persists. -/
def apply_answer (gac : Puzzle → Int → Char → List (Nat × Nat)) (room : Room)
    (clue : String) (answer : String) (allow_clearing : Bool) (now : Int) : ApplyResult :=
  match parse_clue clue with
  | none => ApplyResult.rejected room
  | some (num, direction) =>
    match parse_answer answer with
    | none => ApplyResult.error room
    | some vals => apply_answer_core gac room num direction vals allow_clearing now

/-- One cell step of the clearing loop in `clear_incorrect_cells`: clear the
cell when it is truthy (a non-empty string) and differs from the solution. -/
def clear_one (solution : Grid) (g : Grid) (x y : Nat) : Grid :=
  match getCell g x y with
  | none => g
  | some s =>
    if s = "" then g
    else if some s ≠ getCell solution x y then setCell g x y "" else g

/-- `clear_incorrect_cells` from rooms.py: blank out every filled-in cell that
disagrees with the solution, then recompute all filled flags. -/
def clear_incorrect_cells (gac : Puzzle → Int → Char → List (Nat × Nat)) (room : Room) : Room :=
  let cells2 := (List.range room.puzzle.rows).foldl
    (fun g y => (List.range room.puzzle.cols).foldl
      (fun g2 x => clear_one room.puzzle.cells g2 x y) g)
    room.cells
  let across2 := recompute_filled cells2 (room.puzzle.across_clues.map Prod.fst)
    (fun k => gac room.puzzle k 'a') room.across_clues_filled
  let down2 := recompute_filled cells2 (room.puzzle.down_clues.map Prod.fst)
    (fun k => gac room.puzzle k 'd') room.down_clues_filled
  { room with cells := cells2, across_clues_filled := across2, down_clues_filled := down2 }

/-- `play_pause` from rooms.py.  `none` models the `TypeError` raised when the
state is "playing" but `last_start_time` is `None`. -/
def play_pause (room : Room) (now : Int) : Option Room :=
  if room.play_pause_state == "created" || room.play_pause_state == "paused" then
    some { room with play_pause_state := "playing", last_start_time := some now }
  else if room.play_pause_state == "playing" then
    match room.last_start_time with
    | none => none
    | some t =>
      some { room with
        play_pause_state := "paused",
        last_start_time := none,
        total_time_secs := room.total_time_secs + elapsedSecs now t }
  else
    some room

/-- JSON values, as produced by `json.dumps` / consumed by `json.loads`.  The
round-trip claims are stated at this value level: serializing a well-formed
value tree to text and re-reading it is the identity, so the interesting
content is the field/key/type conversions done by `to_json` / `from_json`. -/
inductive Json where
  | null : Json
  | bool : Bool → Json
  | int : Int → Json
  | str : String → Json
  | arr : List Json → Json
  | obj : List (String × Json) → Json

/-- One cell value as a JSON value: a block (`None`) becomes `null`. -/
def encodeCell : Option String → Json
  | none => Json.null
  | some s => Json.str s

/-- A grid of cells as a JSON value. -/
def encodeGrid (g : Grid) : Json :=
  Json.arr (g.map (fun row => Json.arr (row.map encodeCell)))

/-- A grid of ints as a JSON value. -/
def encodeIntGrid (g : List (List Int)) : Json :=
  Json.arr (g.map (fun row => Json.arr (row.map Json.int)))

/-- A grid of booleans as a JSON value. -/
def encodeBoolGrid (g : List (List Bool)) : Json :=
  Json.arr (g.map (fun row => Json.arr (row.map Json.bool)))

/-- An int-keyed map of booleans as a JSON object: `json.dumps` converts the
int keys to their decimal string form. -/
def encodeFilled (m : List (Int × Bool)) : Json :=
  Json.obj (m.map (fun p => (String.mk (intToDigits p.1), Json.bool p.2)))

/-- An int-keyed map of clue strings as a JSON object, keys as for
`encodeFilled`. -/
def encodeClues (m : List (Int × String)) : Json :=
  Json.obj (m.map (fun p => (String.mk (intToDigits p.1), Json.str p.2)))

/-- Modelled from the spec: `Puzzle.to_dict` is not among the sources under
verification; per the spec the puzzle definition round-trips through a dict
with fields rows, cols, title, publisher, published date, author, the three
grids, and the two int-keyed clue-text maps. -/
def puzzle_to_dict (p : Puzzle) : Json :=
  Json.obj [
    ("rows", Json.int p.rows),
    ("cols", Json.int p.cols),
    ("title", Json.str p.title),
    ("publisher", Json.str p.publisher),
    ("published", Json.str p.published),
    ("author", Json.str p.author),
    ("cells", encodeGrid p.cells),
    ("cell_clue_numbers", encodeIntGrid p.cell_clue_numbers),
    ("cell_circles", encodeBoolGrid p.cell_circles),
    ("across_clues", encodeClues p.across_clues),
    ("down_clues", encodeClues p.down_clues)]

/-- `Room.to_json` from rooms.py, at the JSON-value level: `last_start_time`
(always truthy when present) is rendered by `isoformat`, modelled as the
decimal form of the microsecond timestamp; everything else is passed to
`json.dumps`, which stringifies the int keys of the filled maps. -/
def Room.to_json (room : Room) : Json :=
  Json.obj [
    ("play_pause_state", Json.str room.play_pause_state),
    ("puzzle", puzzle_to_dict room.puzzle),
    ("cells", encodeGrid room.cells),
    ("across_clues_filled", encodeFilled room.across_clues_filled),
    ("down_clues_filled", encodeFilled room.down_clues_filled),
    ("last_start_time",
      match room.last_start_time with
      | none => Json.null
      | some t => Json.str (String.mk (intToDigits t))),
    ("total_time_secs", Json.int room.total_time_secs)]

/-- JSON object field lookup. -/
def lookupField : List (String × Json) → String → Option Json
  | [], _ => none
  | (k0, v) :: rest, k => if k0 = k then some v else lookupField rest k

/-- `d[key]` on a decoded JSON value; `none` models a `KeyError` or a
non-object value. -/
def getField : Json → String → Option Json
  | Json.obj fields, k => lookupField fields k
  | _, _ => none

/-- Decode a JSON string. -/
def asStr : Json → Option String
  | Json.str s => some s
  | _ => none

/-- Decode a JSON boolean. -/
def asBool : Json → Option Bool
  | Json.bool b => some b
  | _ => none

/-- Decode a JSON integer. -/
def asInt : Json → Option Int
  | Json.int n => some n
  | _ => none

/-- Decode a non-negative JSON integer. -/
def asNat : Json → Option Nat
  | Json.int n => if n < 0 then none else some n.toNat
  | _ => none

/-- Decode every element of a JSON list, failing if any element fails. -/
def decodeList (dec : Json → Option α) : List Json → Option (List α)
  | [] => some []
  | x :: xs =>
    match dec x with
    | none => none
    | some a => (decodeList dec xs).map (fun l => a :: l)

/-- Decode a JSON array of arrays with the given cell decoder. -/
def decodeGridWith (cell : Json → Option α) : Json → Option (List (List α))
  | Json.arr rows =>
    decodeList
      (fun r => match r with
        | Json.arr cs => decodeList cell cs
        | _ => none)
      rows
  | _ => none

/-- Decode one cell value: `null` is a block, a string is cell content. -/
def decodeCell : Json → Option (Option String)
  | Json.null => some none
  | Json.str s => some (some s)
  | _ => none

/-- Decode the string-keyed fields of a JSON object back into an int-keyed
association list: `int(key)` on every key, as `from_json` does. -/
def decodePairs (dec : Json → Option α) : List (String × Json) → Option (List (Int × α))
  | [] => some []
  | (k, v) :: rest =>
    match pyIntChars k.toList, dec v with
    | some n, some a => (decodePairs dec rest).map (fun l => (n, a) :: l)
    | _, _ => none

/-- Decode an int-keyed map of booleans. -/
def decodeFilled : Json → Option (List (Int × Bool))
  | Json.obj fields => decodePairs asBool fields
  | _ => none

/-- Decode an int-keyed map of clue strings. -/
def decodeClues : Json → Option (List (Int × String))
  | Json.obj fields => decodePairs asStr fields
  | _ => none

/-- `if d["last_start_time"]: ... dateutil.parser.parse(...)` from `from_json`:
falsy values (`null`, the empty string) stay absent; a non-empty string is
parsed back into a timestamp (modelled, like `isoformat`, as the decimal form
of the microsecond count). -/
def decodeLast : Json → Option (Option Int)
  | Json.null => some none
  | Json.str s => if s = "" then some none else (pyIntChars s.toList).map some
  | _ => none

/-- Modelled from the spec: `Puzzle.from_dict`, the symmetric decoder of
`puzzle_to_dict`. -/
def puzzle_from_dict (j : Json) : Option Puzzle :=
  ((getField j "rows").bind asNat).bind fun rows =>
  ((getField j "cols").bind asNat).bind fun cols =>
  ((getField j "title").bind asStr).bind fun title =>
  ((getField j "publisher").bind asStr).bind fun publisher =>
  ((getField j "published").bind asStr).bind fun published =>
  ((getField j "author").bind asStr).bind fun author =>
  ((getField j "cells").bind (decodeGridWith decodeCell)).bind fun cells =>
  ((getField j "cell_clue_numbers").bind (decodeGridWith asInt)).bind fun nums =>
  ((getField j "cell_circles").bind (decodeGridWith asBool)).bind fun circles =>
  ((getField j "across_clues").bind decodeClues).bind fun across =>
  ((getField j "down_clues").bind decodeClues).bind fun down =>
  some ⟨rows, cols, title, publisher, published, author, cells, nums, circles, across, down⟩

/-- `Room.from_json` from rooms.py, at the JSON-value level: read every field,
convert the filled-map keys back to ints, and re-parse `last_start_time`. -/
def Room.from_json (j : Json) : Option Room :=
  ((getField j "play_pause_state").bind asStr).bind fun st =>
  ((getField j "puzzle").bind puzzle_from_dict).bind fun pz =>
  ((getField j "cells").bind (decodeGridWith decodeCell)).bind fun cells =>
  ((getField j "across_clues_filled").bind decodeFilled).bind fun across =>
  ((getField j "down_clues_filled").bind decodeFilled).bind fun down =>
  ((getField j "last_start_time").bind decodeLast).bind fun last =>
  ((getField j "total_time_secs").bind asInt).bind fun total =>
  some ⟨st, pz, cells, across, down, last, total⟩

/-! ### Concrete fixtures used by witnesses and counterexamples -/

/-- A 1x3 puzzle whose single across answer is CAT. -/
def wPuzzle : Puzzle :=
  { rows := 1, cols := 3, title := "t", publisher := "p", published := "2020-01-01",
    author := "a",
    cells := [[some "C", some "A", some "T"]],
    cell_clue_numbers := [[1, 0, 0]],
    cell_circles := [[false, false, false]],
    across_clues := [(1, "a pet")],
    down_clues := [] }

/-- Coordinate mapping for `wPuzzle`: clue 1 across covers the whole row. -/
def wGac : Puzzle → Int → Char → List (Nat × Nat) :=
  fun _ n d => if n = 1 ∧ d = 'a' then [(0, 0), (1, 0), (2, 0)] else []

/-- A playing room over `wPuzzle` whose grid already holds C A T. -/
def wRoomCat : Room :=
  { play_pause_state := "playing", puzzle := wPuzzle,
    cells := [[some "C", some "A", some "T"]],
    across_clues_filled := [(1, true)], down_clues_filled := [],
    last_start_time := some 0, total_time_secs := 0 }

/-- A completed room over `wPuzzle` (state complete, timer stopped). -/
def wRoomDone : Room :=
  { play_pause_state := "complete", puzzle := wPuzzle,
    cells := [[some "C", some "A", some "T"]],
    across_clues_filled := [(1, true)], down_clues_filled := [],
    last_start_time := none, total_time_secs := 42 }

/-- A freshly created room over `wPuzzle` with a blank grid. -/
def wRoomCreated : Room :=
  { play_pause_state := "created", puzzle := wPuzzle,
    cells := [[some "", some "", some ""]],
    across_clues_filled := [(1, false)], down_clues_filled := [],
    last_start_time := none, total_time_secs := 0 }

/-- A 1x1 puzzle whose lone cell holds A. -/
def bugPuzzle : Puzzle :=
  { rows := 1, cols := 1, title := "t", publisher := "p", published := "2020-01-01",
    author := "a",
    cells := [[some "A"]],
    cell_clue_numbers := [[1]],
    cell_circles := [[false]],
    across_clues := [(1, "first letter")],
    down_clues := [] }

/-- Coordinate mapping for `bugPuzzle`: every clue covers the lone cell. -/
def bugGac : Puzzle → Int → Char → List (Nat × Nat) :=
  fun _ _ _ => [(0, 0)]

/-- A paused room over `bugPuzzle` one correct letter away from completion:
per the data-model invariant, a non-playing room has no `last_start_time`. -/
def bugRoom : Room :=
  { play_pause_state := "paused", puzzle := bugPuzzle,
    cells := [[some ""]],
    across_clues_filled := [(1, false)], down_clues_filled := [],
    last_start_time := none, total_time_secs := 0 }


/-! ### Decimal digits and the Python `int` grammar -/

lemma charVal_digitChar {d : Nat} (h : d < 10) : charVal (digitChar d) = d := by
  interval_cases d <;> rfl

lemma digitChar_isDigit {d : Nat} (h : d < 10) : (digitChar d).isDigit = true := by
  interval_cases d <;> rfl

lemma natToDigits_ne_nil (n : Nat) : natToDigits n ≠ [] := by
  rw [natToDigits]
  split <;> simp

lemma natToDigits_all_digit (n : Nat) : ∀ c ∈ natToDigits n, c.isDigit = true := by
  induction n using Nat.strong_induction_on with
  | _ n ih =>
    rw [natToDigits]
    by_cases h : n < 10
    · simpa [h] using digitChar_isDigit h
    · rw [dif_neg h]
      intro c hc
      rcases List.mem_append.mp hc with h1 | h1
      · exact ih (n / 10) (Nat.div_lt_self (by omega) (by omega)) c h1
      · have : c = digitChar (n % 10) := by simpa using h1
        subst this
        exact digitChar_isDigit (by omega)

lemma isDigit_not_ws {c : Char} (h : c.isDigit = true) : c.isWhitespace = false := by
  simp only [Char.isDigit, decide_eq_true_eq, Bool.and_eq_true] at h
  simp only [Char.isWhitespace]
  have h1 := h.1
  have h2 := h.2
  simp only [decide_eq_true_eq] at h1 h2
  have : ('0' : Char).toNat ≤ c.toNat := h1
  have : c.toNat ≤ ('9' : Char).toNat := h2
  simp only [Bool.or_eq_false_iff, decide_eq_false_iff_not]
  refine ⟨⟨⟨?_, ?_⟩, ?_⟩, ?_⟩ <;> intro he <;> subst he <;> simp_all

lemma isDigit_ne_underscore {c : Char} (h : c.isDigit = true) : c ≠ '_' := by
  intro he; subst he; exact absurd h (by decide)

lemma isDigit_ne_plus {c : Char} (h : c.isDigit = true) : c ≠ '+' := by
  intro he; subst he; exact absurd h (by decide)

lemma isDigit_ne_minus {c : Char} (h : c.isDigit = true) : c ≠ '-' := by
  intro he; subst he; exact absurd h (by decide)

lemma digitsVal_natToDigits (n : Nat) : digitsVal (natToDigits n) = n := by
  induction n using Nat.strong_induction_on with
  | _ n ih =>
    rw [natToDigits]
    by_cases h : n < 10
    · simp [h, digitsVal, charVal_digitChar h]
    · rw [dif_neg h]
      have hd : n / 10 < n := Nat.div_lt_self (by omega) (by omega)
      have hrec := ih (n / 10) hd
      unfold digitsVal at hrec ⊢
      rw [List.foldl_append, hrec]
      simp only [List.foldl_cons, List.foldl_nil]
      rw [charVal_digitChar (by omega)]
      omega

lemma pyDigitsGo_cons (acc : Nat) (c : Char) (cs : List Char) :
    pyDigitsGo acc (c :: cs) =
      if c = '_' then
        (match cs with
          | c2 :: cs2 => if c2.isDigit then pyDigitsGo (acc * 10 + charVal c2) cs2 else none
          | [] => none)
      else if c.isDigit then pyDigitsGo (acc * 10 + charVal c) cs
      else none := by
  rw [pyDigitsGo.eq_def]

lemma pyDigitsGo_digits (cs : List Char) :
    ∀ acc : Nat, (∀ c ∈ cs, c.isDigit = true) →
      pyDigitsGo acc cs = some (cs.foldl (fun a c => a * 10 + charVal c) acc) := by
  induction cs with
  | nil => intro acc _; rfl
  | cons c cs ih =>
    intro acc h
    have hc : c.isDigit = true := h c (by simp)
    rw [pyDigitsGo_cons]
    rw [if_neg (isDigit_ne_underscore hc), if_pos hc]
    rw [ih _ (fun x hx => h x (by simp [hx]))]
    rfl

lemma pyDigits_digits (cs : List Char) (hne : cs ≠ [])
    (h : ∀ c ∈ cs, c.isDigit = true) : pyDigits cs = some (digitsVal cs) := by
  cases cs with
  | nil => contradiction
  | cons c rest =>
    rw [pyDigits, if_pos (h c (by simp))]
    rw [pyDigitsGo_digits rest _ (fun x hx => h x (by simp [hx]))]
    unfold digitsVal
    simp only [List.foldl_cons]
    norm_num

lemma dropWhile_eq_self_of_head {p : Char → Bool} (cs : List Char)
    (h : ∀ c, cs.head? = some c → p c = false) : cs.dropWhile p = cs := by
  cases cs with
  | nil => rfl
  | cons c rest => rw [List.dropWhile_cons, if_neg (by simp [h c rfl])]

lemma dropWhile_append_ws {p : Char → Bool} (ws mid : List Char)
    (hws : ∀ c ∈ ws, p c = true) (hmid : ∀ c, mid.head? = some c → p c = false) :
    List.dropWhile p (ws ++ mid) = mid := by
  induction ws with
  | nil => simpa using dropWhile_eq_self_of_head mid hmid
  | cons a ws ih =>
    rw [List.cons_append, List.dropWhile_cons, if_pos (by simp [hws a (by simp)])]
    exact ih (fun c hc => hws c (by simp [hc]))

lemma stripChars_of_no_ws (cs : List Char) (h : ∀ c ∈ cs, c.isWhitespace = false) :
    stripChars cs = cs := by
  unfold stripChars
  rw [dropWhile_eq_self_of_head cs (fun c hc => by
    have : c ∈ cs := by cases cs <;> simp_all
    exact h c this)]
  rw [dropWhile_eq_self_of_head cs.reverse (fun c hc => by
    have : c ∈ cs.reverse := by cases hrev : cs.reverse <;> simp_all
    exact h c (List.mem_reverse.mp this))]
  exact List.reverse_reverse cs

lemma strip_sandwich (ws1 mid ws2 : List Char)
    (h1 : ∀ c ∈ ws1, c.isWhitespace = true) (h2 : ∀ c ∈ ws2, c.isWhitespace = true)
    (hm : ∀ c ∈ mid, c.isWhitespace = false) (hne : mid ≠ []) :
    stripChars (ws1 ++ mid ++ ws2) = mid := by
  unfold stripChars
  rw [List.append_assoc]
  rw [dropWhile_append_ws ws1 (mid ++ ws2) h1 (fun c hc => by
    cases mid with
    | nil => contradiction
    | cons m ms =>
      simp only [List.cons_append, List.head?_cons, Option.some.injEq] at hc
      subst hc
      exact hm m (by simp))]
  rw [List.reverse_append]
  rw [dropWhile_append_ws ws2.reverse mid.reverse
    (fun c hc => h2 c (List.mem_reverse.mp hc))
    (fun c hc => by
      have : c ∈ mid.reverse := by cases hrev : mid.reverse <;> simp_all
      exact hm c (List.mem_reverse.mp this))]
  exact List.reverse_reverse mid

lemma pyIntChars_natToDigits (n : Nat) : pyIntChars (natToDigits n) = some (Int.ofNat n) := by
  unfold pyIntChars
  rw [stripChars_of_no_ws _ (fun c hc => isDigit_not_ws (natToDigits_all_digit n c hc))]
  cases hds : natToDigits n with
  | nil => exact absurd hds (natToDigits_ne_nil n)
  | cons c rest =>
    have hc : c.isDigit = true := natToDigits_all_digit n c (by rw [hds]; simp)
    simp only [pyIntCore]
    rw [if_neg (isDigit_ne_plus hc), if_neg (isDigit_ne_minus hc)]
    rw [← hds, pyDigits_digits _ (natToDigits_ne_nil n) (natToDigits_all_digit n)]
    rw [digitsVal_natToDigits]
    rfl

lemma intToDigits_ne_nil (i : Int) : intToDigits i ≠ [] := by
  unfold intToDigits
  split
  · simp
  · exact natToDigits_ne_nil _

lemma pyIntChars_intToDigits (i : Int) : pyIntChars (intToDigits i) = some i := by
  unfold intToDigits
  by_cases hi : i < 0
  · rw [if_pos hi]
    unfold pyIntChars
    have hds : ∀ c ∈ '-' :: natToDigits i.natAbs, c.isWhitespace = false := by
      intro c hc
      rcases List.mem_cons.mp hc with rfl | hmem
      · decide
      · exact isDigit_not_ws (natToDigits_all_digit _ c hmem)
    rw [stripChars_of_no_ws _ hds]
    rw [show pyIntCore ('-' :: natToDigits i.natAbs)
          = (pyDigits (natToDigits i.natAbs)).map (fun n => -(Int.ofNat n)) from by
        rw [pyIntCore.eq_def]
        simp]
    rw [pyDigits_digits _ (natToDigits_ne_nil _) (natToDigits_all_digit _)]
    rw [digitsVal_natToDigits]
    simp only [Option.map]
    congr 1
    have h2 : Int.ofNat i.natAbs = ((i.natAbs : Nat) : Int) := rfl
    rw [h2]
    omega
  · rw [if_neg hi]
    rw [pyIntChars_natToDigits]
    congr 1
    have h2 : Int.ofNat i.natAbs = ((i.natAbs : Nat) : Int) := rfl
    rw [h2]
    omega

/-! ### Clue-reference parsing -/

lemma splitLast_append (l : List Char) (c : Char) : splitLast (l ++ [c]) = some (l, c) := by
  induction l with
  | nil => rfl
  | cons a l ih =>
    cases l with
    | nil => rfl
    | cons b l2 =>
      rw [List.cons_append]
      rw [show (b :: l2) ++ [c] = b :: (l2 ++ [c]) from rfl] at ih ⊢
      rw [splitLast, ih]
      rfl

lemma splitLast_eq_append {l f : List Char} {c : Char} (h : splitLast l = some (f, c)) :
    l = f ++ [c] := by
  induction l generalizing f c with
  | nil => simp [splitLast] at h
  | cons a l ih =>
    cases l with
    | nil =>
      simp only [splitLast, Option.some.injEq, Prod.mk.injEq] at h
      rw [← h.1, ← h.2]
      rfl
    | cons b l2 =>
      rw [splitLast] at h
      cases hs : splitLast (b :: l2) with
      | none => rw [hs] at h; simp at h
      | some p =>
        rw [hs] at h
        simp only [Option.map_some', Option.some.injEq] at h
        obtain ⟨f2, c2⟩ := p
        have hl := ih (f := f2) (c := c2) hs
        simp only [Prod.mk.injEq] at h
        rw [← h.1, ← h.2]
        rw [List.cons_append, ← hl]

lemma parse_clue_chars_iff (cs : List Char) (n : Int) (d : Char) :
    parse_clue_chars cs = some (n, d) ↔
      ∃ front c, stripChars cs = front ++ [c] ∧ pyIntChars front = some n ∧
        c.toLower = d ∧ (d = 'a' ∨ d = 'd') := by
  unfold parse_clue_chars
  constructor
  · intro h
    split at h
    · exact absurd h (by simp)
    next front last heq =>
      split at h
      · exact absurd h (by simp)
      next m hm =>
        simp only at h
        split at h
        next hcond =>
          simp only [Option.some.injEq, Prod.mk.injEq] at h
          refine ⟨front, last, splitLast_eq_append heq, ?_, h.2, ?_⟩
          · rw [hm, h.1]
          · rw [← h.2]; exact hcond
        next hcond => exact absurd h (by simp)
  · rintro ⟨front, c, hsplit, hint, hlow, hd⟩
    rw [hsplit, splitLast_append]
    show (match pyIntChars front with
      | none => none
      | some n =>
        let d := c.toLower
        if d = 'a' ∨ d = 'd' then some (n, d) else none) = some (n, d)
    rw [hint]
    show (if c.toLower = 'a' ∨ c.toLower = 'd' then some (n, c.toLower) else none) = some (n, d)
    rw [hlow, if_pos hd]

lemma parse_clue_canonical (ws1 ws2 : List Char) (n : Nat) (c : Char)
    (h1 : ∀ a ∈ ws1, a.isWhitespace = true) (h2 : ∀ a ∈ ws2, a.isWhitespace = true)
    (hc : c = 'a' ∨ c = 'A' ∨ c = 'd' ∨ c = 'D') :
    parse_clue (String.mk (ws1 ++ (natToDigits n ++ [c]) ++ ws2))
      = some (Int.ofNat n, c.toLower) := by
  unfold parse_clue
  rw [show (String.mk (ws1 ++ (natToDigits n ++ [c]) ++ ws2)).toList
        = ws1 ++ (natToDigits n ++ [c]) ++ ws2 from rfl]
  have hmid : ∀ a ∈ natToDigits n ++ [c], a.isWhitespace = false := by
    intro a ha
    rcases List.mem_append.mp ha with hm | hm
    · exact isDigit_not_ws (natToDigits_all_digit n a hm)
    · have : a = c := by simpa using hm
      subst this
      rcases hc with rfl | rfl | rfl | rfl <;> decide
  rw [parse_clue_chars_iff]
  refine ⟨natToDigits n, c, ?_, pyIntChars_natToDigits n, rfl, ?_⟩
  · exact strip_sandwich ws1 _ ws2 h1 h2 hmid (by simp)
  · rcases hc with rfl | rfl | rfl | rfl <;> decide

/-! ### Answer parsing -/

lemma appendLast_ne_nil (l : List String) (c : Char) (h : l ≠ []) :
    ∃ l2, appendLast l c = some l2 ∧ l2 ≠ [] := by
  induction l with
  | nil => contradiction
  | cons s rest ih =>
    cases rest with
    | nil => exact ⟨[s.push c], rfl, by simp⟩
    | cons s2 r2 =>
      obtain ⟨l2, hl1, hl2⟩ := ih (by simp)
      refine ⟨s :: l2, ?_, by simp⟩
      rw [appendLast, hl1]
      rfl

lemma parse_answer_run_total (cs : List Char) :
    ∀ (cells : List String) (inP : Bool), (inP = true → cells ≠ []) →
      ∃ st, parse_answer_run cs cells inP = some st := by
  induction cs with
  | nil => intro cells inP _; exact ⟨(cells, inP), rfl⟩
  | cons c cs ih =>
    intro cells inP hinv
    rw [parse_answer_run]
    by_cases hws : c.isWhitespace
    · rw [if_pos hws]; exact ih cells inP hinv
    · rw [if_neg hws]
      cases inP with
      | true =>
        by_cases hcl : c == ')'
        · rw [if_pos (by simp [hcl])]
          exact ih cells false (by simp)
        · rw [if_neg (by simp_all), if_pos rfl]
          obtain ⟨cells2, hap, hne⟩ := appendLast_ne_nil cells c (hinv rfl)
          rw [hap]
          exact ih cells2 true (fun _ => hne)
      | false =>
        rw [if_neg (by simp)]
        rw [if_neg (by simp)]
        by_cases hop : c == '('
        · rw [if_pos hop]
          exact ih (cells ++ [""]) true (fun _ => by simp)
        · rw [if_neg hop]
          exact ih (cells ++ [if c == '.' then "" else String.mk [c]]) false (by simp)

lemma parse_answer_isSome (s : String) : ∃ l, parse_answer s = some l := by
  obtain ⟨⟨cells, inP⟩, h⟩ := parse_answer_run_total s.toList [] false (by simp)
  refine ⟨cells, ?_⟩
  unfold parse_answer
  rw [h]
  rfl

/-! ### Grid reads and writes -/

lemma getD_set_self {α} (l : List α) (i : Nat) (a d : α) (h : i < l.length) :
    (l.set i a).getD i d = a := by
  induction l generalizing i with
  | nil => simp at h
  | cons x xs ih =>
    cases i with
    | zero => rfl
    | succ j =>
      simp only [List.set_cons_succ, List.getD_cons_succ]
      exact ih j (by simpa using h)

lemma set_oob {α} (l : List α) (i : Nat) (a : α) (h : l.length ≤ i) : l.set i a = l := by
  induction l generalizing i with
  | nil => rfl
  | cons x xs ih =>
    cases i with
    | zero => simp at h
    | succ j =>
      simp only [List.set_cons_succ]
      rw [ih j (by simpa using h)]

lemma getD_set_ne {α} (l : List α) (i j : Nat) (a d : α) (h : i ≠ j) :
    (l.set i a).getD j d = l.getD j d := by
  induction l generalizing i j with
  | nil => rfl
  | cons x xs ih =>
    cases i with
    | zero =>
      cases j with
      | zero => exact absurd rfl h
      | succ k => simp [List.set_cons_zero, List.getD_cons_succ]
    | succ m =>
      cases j with
      | zero => simp [List.set_cons_succ, List.getD_cons_zero]
      | succ k =>
        simp only [List.set_cons_succ, List.getD_cons_succ]
        exact ih m k (by omega)

lemma getCell_setCell_self (g : Grid) (x y : Nat) (v : String) (h : inBounds g x y) :
    getCell (setCell g x y v) x y = some v := by
  obtain ⟨hy, hx⟩ := h
  unfold getCell setCell
  rw [getD_set_self _ _ _ _ hy]
  exact getD_set_self _ _ _ _ hx

lemma getCell_setCell_ne (g : Grid) (x y x2 y2 : Nat) (v : String)
    (h : (x, y) ≠ (x2, y2)) : getCell (setCell g x y v) x2 y2 = getCell g x2 y2 := by
  unfold getCell setCell
  by_cases hy : y = y2
  · subst hy
    have hx : x ≠ x2 := fun he => h (by rw [he])
    by_cases hylen : y < g.length
    · rw [getD_set_self _ _ _ _ hylen, getD_set_ne _ _ _ _ _ hx]
    · rw [set_oob _ _ _ (by omega)]
  · rw [getD_set_ne _ _ _ _ _ hy]

lemma length_setCell (g : Grid) (x y : Nat) (v : String) :
    (setCell g x y v).length = g.length := by
  simp [setCell]

lemma rowlen_setCell (g : Grid) (x y : Nat) (v : String) (y2 : Nat) :
    ((setCell g x y v).getD y2 []).length = (g.getD y2 []).length := by
  unfold setCell
  by_cases hy : y = y2
  · subst hy
    by_cases hylen : y < g.length
    · rw [getD_set_self _ _ _ _ hylen]
      simp
    · rw [set_oob _ _ _ (by omega)]
  · rw [getD_set_ne _ _ _ _ _ hy]

lemma inBounds_setCell (g : Grid) (x y : Nat) (v : String) (x2 y2 : Nat) :
    inBounds (setCell g x y v) x2 y2 ↔ inBounds g x2 y2 := by
  unfold inBounds
  rw [length_setCell, rowlen_setCell]

lemma write_cells_nil (g : Grid) (allow_clearing : Bool) :
    write_cells g [] allow_clearing = g := rfl

lemma write_cells_cons (g : Grid) (pr : String × Nat × Nat)
    (rest : List (String × Nat × Nat)) (allow_clearing : Bool) :
    write_cells g (pr :: rest) allow_clearing =
      write_cells
        (if allow_clearing || pr.1 != "" then setCell g pr.2.1 pr.2.2 pr.1 else g)
        rest allow_clearing := rfl

lemma getCell_write_cells_not_mem (pairs : List (String × Nat × Nat)) (g : Grid)
    (allow_clearing : Bool) (x y : Nat) (h : ∀ pr ∈ pairs, pr.2 ≠ (x, y)) :
    getCell (write_cells g pairs allow_clearing) x y = getCell g x y := by
  induction pairs generalizing g with
  | nil => rfl
  | cons pr rest ih =>
    rw [write_cells_cons]
    rw [ih _ (fun q hq => h q (List.mem_cons_of_mem _ hq))]
    split
    · exact getCell_setCell_ne _ _ _ _ _ _ (h pr (by simp))
    · rfl

lemma getCell_write_cells_mem (pairs : List (String × Nat × Nat)) (g : Grid)
    (allow_clearing : Bool)
    (hnd : (pairs.map (fun pr => pr.2)).Nodup)
    (hb : ∀ pr ∈ pairs, inBounds g pr.2.1 pr.2.2) :
    ∀ v x y, (v, (x, y)) ∈ pairs →
      getCell (write_cells g pairs allow_clearing) x y =
        if allow_clearing || v != "" then some v else getCell g x y := by
  induction pairs generalizing g with
  | nil => intro v x y h; simp at h
  | cons pr rest ih =>
    intro v x y hmem
    rw [write_cells_cons]
    have hnd_tail : (rest.map (fun pr => pr.2)).Nodup := (List.nodup_cons.mp hnd).2
    have hhead : pr.2 ∉ rest.map (fun q => q.2) := (List.nodup_cons.mp hnd).1
    rcases List.mem_cons.mp hmem with heq | hrest
    · subst heq
      have hnot : ∀ q ∈ rest, q.2 ≠ (x, y) := by
        intro q hq he
        exact hhead (by rw [show ((v, (x, y)) : String × Nat × Nat).2 = (x, y) from rfl, ← he]
                        exact List.mem_map_of_mem _ hq)
      rw [getCell_write_cells_not_mem _ _ _ _ _ hnot]
      split
      · exact getCell_setCell_self _ _ _ _ (hb _ (by simp))
      · rfl
    · have hxy_mem : (x, y) ∈ rest.map (fun q => q.2) := by
        have := List.mem_map_of_mem (fun q => q.2) hrest
        simpa using this
      have hxy_ne : pr.2 ≠ (x, y) := fun he => hhead (he ▸ hxy_mem)
      have step : getCell (if allow_clearing || pr.1 != "" then setCell g pr.2.1 pr.2.2 pr.1 else g) x y = getCell g x y := by
        split
        · exact getCell_setCell_ne _ _ _ _ _ _ hxy_ne
        · rfl
      have hb2 : ∀ q ∈ rest,
          inBounds (if allow_clearing || pr.1 != "" then setCell g pr.2.1 pr.2.2 pr.1 else g) q.2.1 q.2.2 := by
        intro q hq
        split
        · exact (inBounds_setCell _ _ _ _ _ _).mpr (hb q (List.mem_cons_of_mem _ hq))
        · exact hb q (List.mem_cons_of_mem _ hq)
      rw [ih _ hnd_tail hb2 v x y hrest, step]

/-! ### Filled-flag maps -/

lemma lookup_setAssoc_self (l : List (Int × Bool)) (k : Int) (v : Bool) :
    lookupAssoc (setAssoc l k v) k = some v := by
  induction l with
  | nil => simp [setAssoc, lookupAssoc]
  | cons p rest ih =>
    obtain ⟨k0, v0⟩ := p
    by_cases h : k0 = k
    · simp [setAssoc, h, lookupAssoc]
    · simp only [setAssoc, if_neg h]
      rw [lookupAssoc, if_neg h]
      exact ih

lemma lookup_setAssoc_ne (l : List (Int × Bool)) (k k2 : Int) (v : Bool) (h : k ≠ k2) :
    lookupAssoc (setAssoc l k v) k2 = lookupAssoc l k2 := by
  induction l with
  | nil => simp [setAssoc, lookupAssoc, if_neg h]
  | cons p rest ih =>
    obtain ⟨k0, v0⟩ := p
    by_cases h0 : k0 = k
    · subst h0
      rw [setAssoc, if_pos rfl, lookupAssoc, lookupAssoc, if_neg h, if_neg h]
    · rw [setAssoc, if_neg h0, lookupAssoc, lookupAssoc]
      split
      · rfl
      · exact ih

lemma recompute_filled_nil (cells : Grid) (resolve : Int → List (Nat × Nat))
    (m : List (Int × Bool)) : recompute_filled cells [] resolve m = m := rfl

lemma recompute_filled_cons (cells : Grid) (k : Int) (ks : List Int)
    (resolve : Int → List (Nat × Nat)) (m : List (Int × Bool)) :
    recompute_filled cells (k :: ks) resolve m =
      recompute_filled cells ks resolve
        (setAssoc m k (allCellsNonBlank cells (resolve k))) := rfl

lemma lookup_recompute_not_mem (cells : Grid) (resolve : Int → List (Nat × Nat))
    (ks : List Int) (m : List (Int × Bool)) (n : Int) (h : n ∉ ks) :
    lookupAssoc (recompute_filled cells ks resolve m) n = lookupAssoc m n := by
  induction ks generalizing m with
  | nil => rfl
  | cons k ks ih =>
    rw [recompute_filled_cons]
    rw [ih _ (fun hm => h (List.mem_cons_of_mem _ hm))]
    exact lookup_setAssoc_ne _ _ _ _ (fun he => h (he ▸ List.mem_cons_self k ks))

lemma lookup_recompute_mem (cells : Grid) (resolve : Int → List (Nat × Nat))
    (ks : List Int) (m : List (Int × Bool)) (n : Int) (h : n ∈ ks) :
    lookupAssoc (recompute_filled cells ks resolve m) n
      = some (allCellsNonBlank cells (resolve n)) := by
  induction ks generalizing m with
  | nil => simp at h
  | cons k ks ih =>
    rw [recompute_filled_cons]
    by_cases hn : n ∈ ks
    · exact ih _ hn
    · have hk : k = n := by
        rcases List.mem_cons.mp h with he | he
        · exact he.symm
        · exact absurd he hn
      subst hk
      rw [lookup_recompute_not_mem _ _ _ _ _ hn]
      exact lookup_setAssoc_self _ _ _

/-! ### Serialization round trip -/

lemma some_bind {α β} (a : α) (f : α → Option β) : (some a).bind f = f a := rfl

lemma decodeList_cons {α} (dec : Json → Option α) (x : Json) (xs : List Json) :
    decodeList dec (x :: xs) =
      match dec x with
      | none => none
      | some a => (decodeList dec xs).map (fun l => a :: l) := rfl

lemma decodeList_map {α} (dec : Json → Option α) (enc : α → Json)
    (h : ∀ a, dec (enc a) = some a) (l : List α) :
    decodeList dec (l.map enc) = some l := by
  induction l with
  | nil => rfl
  | cons a l ih =>
    rw [List.map_cons, decodeList_cons, h a, ih]
    rfl

lemma decodeCell_encodeCell (c : Option String) : decodeCell (encodeCell c) = some c := by
  cases c <;> rfl

lemma decodeGrid_encodeGrid (g : Grid) : decodeGridWith decodeCell (encodeGrid g) = some g := by
  unfold encodeGrid decodeGridWith
  exact decodeList_map _ _ (fun row => decodeList_map _ _ decodeCell_encodeCell row) g

lemma decodeIntGrid_encodeIntGrid (g : List (List Int)) :
    decodeGridWith asInt (encodeIntGrid g) = some g := by
  unfold encodeIntGrid decodeGridWith
  exact decodeList_map
    (fun r => match r with | Json.arr cs => decodeList asInt cs | _ => none)
    (fun row => Json.arr (row.map Json.int))
    (fun row => decodeList_map asInt Json.int (fun n => rfl) row) g

lemma decodeBoolGrid_encodeBoolGrid (g : List (List Bool)) :
    decodeGridWith asBool (encodeBoolGrid g) = some g := by
  unfold encodeBoolGrid decodeGridWith
  exact decodeList_map
    (fun r => match r with | Json.arr cs => decodeList asBool cs | _ => none)
    (fun row => Json.arr (row.map Json.bool))
    (fun row => decodeList_map asBool Json.bool (fun b => rfl) row) g

lemma decodePairs_cons {α} (dec : Json → Option α) (k : String) (v : Json)
    (rest : List (String × Json)) :
    decodePairs dec ((k, v) :: rest) =
      match pyIntChars k.toList, dec v with
      | some n, some a => (decodePairs dec rest).map (fun l => (n, a) :: l)
      | _, _ => none := rfl

lemma decodePairs_encode {α} (dec : Json → Option α) (enc : α → Json)
    (h : ∀ a, dec (enc a) = some a) (m : List (Int × α)) :
    decodePairs dec (m.map (fun p => (String.mk (intToDigits p.1), enc p.2))) = some m := by
  induction m with
  | nil => rfl
  | cons p rest ih =>
    obtain ⟨k, a⟩ := p
    rw [List.map_cons, decodePairs_cons]
    rw [show (String.mk (intToDigits k)).toList = intToDigits k from rfl]
    rw [pyIntChars_intToDigits, h a, ih]
    rfl

lemma decodeFilled_encodeFilled (m : List (Int × Bool)) :
    decodeFilled (encodeFilled m) = some m := by
  unfold encodeFilled decodeFilled
  exact decodePairs_encode asBool Json.bool (fun b => rfl) m

lemma decodeClues_encodeClues (m : List (Int × String)) :
    decodeClues (encodeClues m) = some m := by
  unfold encodeClues decodeClues
  exact decodePairs_encode asStr Json.str (fun s => rfl) m

lemma stringMk_intToDigits_ne_empty (t : Int) : String.mk (intToDigits t) ≠ "" := by
  intro h
  have : intToDigits t = [] := congrArg String.data h
  exact intToDigits_ne_nil t this

lemma decodeLast_encode (t : Option Int) :
    decodeLast
      (match t with
        | none => Json.null
        | some t => Json.str (String.mk (intToDigits t))) = some t := by
  cases t with
  | none => rfl
  | some t =>
    show decodeLast (Json.str (String.mk (intToDigits t))) = some (some t)
    rw [decodeLast, if_neg (stringMk_intToDigits_ne_empty t)]
    rw [show (String.mk (intToDigits t)).toList = intToDigits t from rfl]
    rw [pyIntChars_intToDigits]
    rfl

lemma asNat_int_cast (n : Nat) : asNat (Json.int (n : Int)) = some n := by
  show (if ((n : Int)) < 0 then none else some ((n : Int)).toNat) = some n
  rw [if_neg (by omega)]
  simp

lemma puzzle_from_dict_to_dict (p : Puzzle) : puzzle_from_dict (puzzle_to_dict p) = some p := by
  have h1 : getField (puzzle_to_dict p) "rows" = some (Json.int p.rows) := rfl
  have h2 : getField (puzzle_to_dict p) "cols" = some (Json.int p.cols) := rfl
  have h3 : getField (puzzle_to_dict p) "title" = some (Json.str p.title) := rfl
  have h4 : getField (puzzle_to_dict p) "publisher" = some (Json.str p.publisher) := rfl
  have h5 : getField (puzzle_to_dict p) "published" = some (Json.str p.published) := rfl
  have h6 : getField (puzzle_to_dict p) "author" = some (Json.str p.author) := rfl
  have h7 : getField (puzzle_to_dict p) "cells" = some (encodeGrid p.cells) := rfl
  have h8 : getField (puzzle_to_dict p) "cell_clue_numbers"
      = some (encodeIntGrid p.cell_clue_numbers) := rfl
  have h9 : getField (puzzle_to_dict p) "cell_circles"
      = some (encodeBoolGrid p.cell_circles) := rfl
  have h10 : getField (puzzle_to_dict p) "across_clues" = some (encodeClues p.across_clues) := rfl
  have h11 : getField (puzzle_to_dict p) "down_clues" = some (encodeClues p.down_clues) := rfl
  unfold puzzle_from_dict
  rw [h1, h2, h3, h4, h5, h6, h7, h8, h9, h10, h11]
  simp only [some_bind, asStr, asNat_int_cast, decodeGrid_encodeGrid,
    decodeIntGrid_encodeIntGrid, decodeBoolGrid_encodeBoolGrid, decodeClues_encodeClues]

lemma Room.from_json_to_json (room : Room) : Room.from_json (Room.to_json room) = some room := by
  have h1 : getField (Room.to_json room) "play_pause_state"
      = some (Json.str room.play_pause_state) := rfl
  have h2 : getField (Room.to_json room) "puzzle" = some (puzzle_to_dict room.puzzle) := rfl
  have h3 : getField (Room.to_json room) "cells" = some (encodeGrid room.cells) := rfl
  have h4 : getField (Room.to_json room) "across_clues_filled"
      = some (encodeFilled room.across_clues_filled) := rfl
  have h5 : getField (Room.to_json room) "down_clues_filled"
      = some (encodeFilled room.down_clues_filled) := rfl
  have h6 : getField (Room.to_json room) "last_start_time"
      = some (match room.last_start_time with
          | none => Json.null
          | some t => Json.str (String.mk (intToDigits t))) := rfl
  have h7 : getField (Room.to_json room) "total_time_secs"
      = some (Json.int room.total_time_secs) := rfl
  unfold Room.from_json
  rw [h1, h2, h3, h4, h5, h6, h7]
  simp only [some_bind, asStr, asInt, puzzle_from_dict_to_dict, decodeGrid_encodeGrid,
    decodeFilled_encodeFilled, decodeLast_encode]

/-! ### apply_answer branch analysis -/

lemma aa_room2_state (gac : Puzzle → Int → Char → List (Nat × Nat)) (room : Room)
    (num : Int) (direction : Char) (vals : List String) (allow_clearing : Bool) :
    (aa_room2 gac room num direction vals allow_clearing).play_pause_state
      = room.play_pause_state := rfl

lemma aa_room2_last (gac : Puzzle → Int → Char → List (Nat × Nat)) (room : Room)
    (num : Int) (direction : Char) (vals : List String) (allow_clearing : Bool) :
    (aa_room2 gac room num direction vals allow_clearing).last_start_time
      = room.last_start_time := rfl

lemma apply_answer_parsed (gac : Puzzle → Int → Char → List (Nat × Nat)) (room : Room)
    (clue answer : String) (allow_clearing : Bool) (now : Int)
    (num : Int) (direction : Char) (vals : List String)
    (hc : parse_clue clue = some (num, direction))
    (ha : parse_answer answer = some vals) :
    apply_answer gac room clue answer allow_clearing now
      = apply_answer_core gac room num direction vals allow_clearing now := by
  unfold apply_answer
  rw [hc]
  show (match parse_answer answer with
    | none => ApplyResult.error room
    | some vals => apply_answer_core gac room num direction vals allow_clearing now) = _
  rw [ha]

lemma apply_answer_cases (gac : Puzzle → Int → Char → List (Nat × Nat)) (room : Room)
    (clue answer : String) (allow_clearing : Bool) (now : Int) :
    apply_answer gac room clue answer allow_clearing now = ApplyResult.rejected room
    ∨ apply_answer gac room clue answer allow_clearing now = ApplyResult.error room
    ∨ ∃ num direction vals,
        apply_answer gac room clue answer allow_clearing now
          = apply_answer_core gac room num direction vals allow_clearing now := by
  unfold apply_answer
  cases parse_clue clue with
  | none => exact Or.inl rfl
  | some p =>
    obtain ⟨num, direction⟩ := p
    cases parse_answer answer with
    | none => exact Or.inr (Or.inl rfl)
    | some vals => exact Or.inr (Or.inr ⟨num, direction, vals, rfl⟩)

lemma apply_answer_core_mismatch (gac : Puzzle → Int → Char → List (Nat × Nat)) (room : Room)
    (num : Int) (direction : Char) (vals : List String) (allow_clearing : Bool) (now : Int)
    (hlen : vals.length ≠ (gac room.puzzle num direction).length) :
    apply_answer_core gac room num direction vals allow_clearing now
      = ApplyResult.rejected room := by
  unfold apply_answer_core
  rw [if_pos hlen]

lemma apply_answer_core_match (gac : Puzzle → Int → Char → List (Nat × Nat)) (room : Room)
    (num : Int) (direction : Char) (vals : List String) (allow_clearing : Bool) (now : Int)
    (hlen : vals.length = (gac room.puzzle num direction).length) :
    apply_answer_core gac room num direction vals allow_clearing now
      = if (aa_room2 gac room num direction vals allow_clearing).cells = room.puzzle.cells then
          match room.last_start_time with
          | none => ApplyResult.error (aa_room2 gac room num direction vals allow_clearing)
          | some t =>
            ApplyResult.ok { aa_room2 gac room num direction vals allow_clearing with
              play_pause_state := "complete",
              last_start_time := none,
              total_time_secs := room.total_time_secs + elapsedSecs now t }
        else ApplyResult.ok (aa_room2 gac room num direction vals allow_clearing) := by
  unfold apply_answer_core
  rw [if_neg (fun h => h hlen)]

lemma exit_room_core_state_last (gac : Puzzle → Int → Char → List (Nat × Nat)) (room : Room)
    (num : Int) (direction : Char) (vals : List String) (allow_clearing : Bool) (now : Int)
    (hlast : room.last_start_time = none) :
    (exit_room (apply_answer_core gac room num direction vals allow_clearing now)).play_pause_state
        = room.play_pause_state
      ∨ (exit_room (apply_answer_core gac room num direction vals allow_clearing now)).play_pause_state
        = "complete" := by
  unfold apply_answer_core
  split
  · exact Or.inl rfl
  · split
    · rw [hlast]
      exact Or.inl (aa_room2_state gac room num direction vals allow_clearing)
    · exact Or.inl (aa_room2_state gac room num direction vals allow_clearing)

lemma exit_room_core_last (gac : Puzzle → Int → Char → List (Nat × Nat)) (room : Room)
    (num : Int) (direction : Char) (vals : List String) (allow_clearing : Bool) (now : Int)
    (hlast : room.last_start_time = none) :
    (exit_room (apply_answer_core gac room num direction vals allow_clearing now)).last_start_time
      = none := by
  unfold apply_answer_core
  split
  · exact hlast
  · split
    · rw [hlast]
      rw [show (exit_room (ApplyResult.error (aa_room2 gac room num direction vals allow_clearing)))
            = aa_room2 gac room num direction vals allow_clearing from rfl]
      rw [aa_room2_last]
      exact hlast
    · rw [show (exit_room (ApplyResult.ok (aa_room2 gac room num direction vals allow_clearing)))
            = aa_room2 gac room num direction vals allow_clearing from rfl]
      rw [aa_room2_last]
      exact hlast

/-! ### clear_incorrect_cells and play_pause facts -/

lemma clear_incorrect_cells_state (gac : Puzzle → Int → Char → List (Nat × Nat)) (room : Room) :
    (clear_incorrect_cells gac room).play_pause_state = room.play_pause_state := rfl

lemma clear_incorrect_cells_last (gac : Puzzle → Int → Char → List (Nat × Nat)) (room : Room) :
    (clear_incorrect_cells gac room).last_start_time = room.last_start_time := rfl

lemma clear_incorrect_cells_across (gac : Puzzle → Int → Char → List (Nat × Nat)) (room : Room) :
    (clear_incorrect_cells gac room).across_clues_filled
      = recompute_filled ((clear_incorrect_cells gac room).cells)
          (room.puzzle.across_clues.map Prod.fst)
          (fun k => gac room.puzzle k 'a') room.across_clues_filled := rfl

lemma clear_incorrect_cells_down (gac : Puzzle → Int → Char → List (Nat × Nat)) (room : Room) :
    (clear_incorrect_cells gac room).down_clues_filled
      = recompute_filled ((clear_incorrect_cells gac room).cells)
          (room.puzzle.down_clues.map Prod.fst)
          (fun k => gac room.puzzle k 'd') room.down_clues_filled := rfl

lemma aa_room2_cells_eq (gac : Puzzle → Int → Char → List (Nat × Nat)) (room : Room)
    (num : Int) (direction : Char) (vals : List String) (allow_clearing : Bool) :
    (aa_room2 gac room num direction vals allow_clearing).cells
      = aa_cells2 gac room num direction vals allow_clearing := rfl

lemma aa_room2_across (gac : Puzzle → Int → Char → List (Nat × Nat)) (room : Room)
    (num : Int) (direction : Char) (vals : List String) (allow_clearing : Bool) :
    (aa_room2 gac room num direction vals allow_clearing).across_clues_filled
      = recompute_filled (aa_cells2 gac room num direction vals allow_clearing)
          (room.puzzle.across_clues.map Prod.fst)
          (fun k => gac room.puzzle k 'a') room.across_clues_filled := rfl

lemma aa_room2_down (gac : Puzzle → Int → Char → List (Nat × Nat)) (room : Room)
    (num : Int) (direction : Char) (vals : List String) (allow_clearing : Bool) :
    (aa_room2 gac room num direction vals allow_clearing).down_clues_filled
      = recompute_filled (aa_cells2 gac room num direction vals allow_clearing)
          (room.puzzle.down_clues.map Prod.fst)
          (fun k => gac room.puzzle k 'd') room.down_clues_filled := rfl

lemma elapsedSecs_eq_fdiv {now t : Int} (h : t ≤ now) :
    elapsedSecs now t = Int.fdiv (now - t) 1000000 := by
  unfold elapsedSecs
  obtain ⟨m, hm⟩ := Int.eq_ofNat_of_zero_le (show 0 ≤ now - t by omega)
  rw [hm]
  show Int.tdiv (Int.ofNat m) (Int.ofNat 1000000) = Int.fdiv (Int.ofNat m) (Int.ofNat 1000000)
  cases m with
  | zero => rfl
  | succ m => rfl

lemma exit_room_core_fields (gac : Puzzle → Int → Char → List (Nat × Nat)) (room : Room)
    (num : Int) (direction : Char) (vals : List String) (allow_clearing : Bool) (now : Int)
    (hlen : vals.length = (gac room.puzzle num direction).length) :
    (exit_room (apply_answer_core gac room num direction vals allow_clearing now)).cells
        = aa_cells2 gac room num direction vals allow_clearing
    ∧ (exit_room (apply_answer_core gac room num direction vals allow_clearing now)).across_clues_filled
        = recompute_filled (aa_cells2 gac room num direction vals allow_clearing)
            (room.puzzle.across_clues.map Prod.fst) (fun k => gac room.puzzle k 'a')
            room.across_clues_filled
    ∧ (exit_room (apply_answer_core gac room num direction vals allow_clearing now)).down_clues_filled
        = recompute_filled (aa_cells2 gac room num direction vals allow_clearing)
            (room.puzzle.down_clues.map Prod.fst) (fun k => gac room.puzzle k 'd')
            room.down_clues_filled := by
  rw [apply_answer_core_match gac room num direction vals allow_clearing now hlen]
  split
  · cases room.last_start_time with
    | none => exact ⟨rfl, rfl, rfl⟩
    | some t => exact ⟨rfl, rfl, rfl⟩
  · exact ⟨rfl, rfl, rfl⟩

/-! ### Claim theorems -/

/-- C1: for every session whose state is complete (with, per the data-model
invariant, no running timer), any further `apply_answer` call leaves the
in-memory room's state equal to complete with `last_start_time` still absent —
whichever way the call exits — and `clear_incorrect_cells` likewise never
moves the state away from complete or re-starts the timer. -/
theorem completion_monotonic (gac : Puzzle → Int → Char → List (Nat × Nat)) (room : Room)
    (clue answer : String) (allow_clearing : Bool) (now : Int)
    (hstate : room.play_pause_state = "complete")
    (hlast : room.last_start_time = none) :
    ((exit_room (apply_answer gac room clue answer allow_clearing now)).play_pause_state
        = "complete"
      ∧ (exit_room (apply_answer gac room clue answer allow_clearing now)).last_start_time
        = none)
    ∧ ((clear_incorrect_cells gac room).play_pause_state = "complete"
      ∧ (clear_incorrect_cells gac room).last_start_time = none) := by
  refine ⟨⟨?_, ?_⟩, ?_, ?_⟩
  · rcases apply_answer_cases gac room clue answer allow_clearing now with h | h | ⟨num, dir, vals, h⟩
    · rw [h]; exact hstate
    · rw [h]; exact hstate
    · rw [h]
      rcases exit_room_core_state_last gac room num dir vals allow_clearing now hlast with h2 | h2
      · rw [h2]; exact hstate
      · exact h2
  · rcases apply_answer_cases gac room clue answer allow_clearing now with h | h | ⟨num, dir, vals, h⟩
    · rw [h]; exact hlast
    · rw [h]; exact hlast
    · rw [h]; exact exit_room_core_last gac room num dir vals allow_clearing now hlast
  · rw [clear_incorrect_cells_state]; exact hstate
  · rw [clear_incorrect_cells_last]; exact hlast

/-- C1 witness: a concrete completed room stays complete, with the timer still
stopped, under both operations. -/
theorem completion_monotonic_witness :
    wRoomDone.play_pause_state = "complete"
    ∧ (exit_room (apply_answer wGac wRoomDone "1a" "CAT" true 5)).play_pause_state = "complete"
    ∧ (clear_incorrect_cells wGac wRoomDone).last_start_time = none :=
  ⟨rfl, (completion_monotonic wGac wRoomDone "1a" "CAT" true 5 rfl rfl).1.1,
    (completion_monotonic wGac wRoomDone "1a" "CAT" true 5 rfl rfl).2.2⟩

/-- C4: when the clue parses and the parsed answer's length differs from the
clue's resolved cell count, `apply_answer` rejects and returns before any
mutation: the result carries the untouched input room. -/
theorem apply_answer_length_mismatch_rejects (gac : Puzzle → Int → Char → List (Nat × Nat))
    (room : Room) (clue answer : String) (allow_clearing : Bool) (now : Int)
    (num : Int) (direction : Char) (vals : List String)
    (hc : parse_clue clue = some (num, direction))
    (ha : parse_answer answer = some vals)
    (hlen : vals.length ≠ (gac room.puzzle num direction).length) :
    apply_answer gac room clue answer allow_clearing now = ApplyResult.rejected room := by
  rw [apply_answer_parsed gac room clue answer allow_clearing now num direction vals hc ha]
  exact apply_answer_core_mismatch gac room num direction vals allow_clearing now hlen

/-- C4 witness: a two-letter answer against a three-cell clue is rejected with
the snapshot unchanged. -/
theorem apply_answer_length_mismatch_witness :
    apply_answer wGac wRoomCat "1a" "AB" true 0 = ApplyResult.rejected wRoomCat :=
  apply_answer_length_mismatch_rejects wGac wRoomCat "1a" "AB" true 0 1 'a' ["A", "B"]
    (by decide) (by decide) (by decide)

/-- C7: for a length-matching answer application resolving to distinct
in-bounds coordinates, each (value, coordinate) pair is written exactly when
clearing is allowed or the value is non-empty; where the answer has an empty
entry and clearing is off, the cell keeps its prior content. -/
theorem partial_write_policy (gac : Puzzle → Int → Char → List (Nat × Nat)) (room : Room)
    (clue answer : String) (allow_clearing : Bool) (now : Int)
    (num : Int) (direction : Char) (vals : List String)
    (hc : parse_clue clue = some (num, direction))
    (ha : parse_answer answer = some vals)
    (hlen : vals.length = (gac room.puzzle num direction).length)
    (hnd : (gac room.puzzle num direction).Nodup)
    (hb : ∀ p ∈ gac room.puzzle num direction, inBounds room.cells p.1 p.2)
    (v : String) (x y : Nat)
    (hmem : (v, (x, y)) ∈ vals.zip (gac room.puzzle num direction)) :
    getCell (exit_room (apply_answer gac room clue answer allow_clearing now)).cells x y
      = if allow_clearing || v != "" then some v else getCell room.cells x y := by
  rw [apply_answer_parsed gac room clue answer allow_clearing now num direction vals hc ha]
  rw [(exit_room_core_fields gac room num direction vals allow_clearing now hlen).1]
  unfold aa_cells2
  have hmap : (vals.zip (gac room.puzzle num direction)).map (fun pr => pr.2)
      = gac room.puzzle num direction := by
    rw [show (fun (pr : String × Nat × Nat) => pr.2) = Prod.snd from rfl]
    exact List.map_snd_zip vals _ (by omega)
  have hnd2 : ((vals.zip (gac room.puzzle num direction)).map (fun pr => pr.2)).Nodup := by
    rw [hmap]; exact hnd
  have hb2 : ∀ pr ∈ vals.zip (gac room.puzzle num direction),
      inBounds room.cells pr.2.1 pr.2.2 := by
    intro pr hpr
    obtain ⟨v0, xy⟩ := pr
    exact hb xy (List.of_mem_zip hpr).2
  exact getCell_write_cells_mem _ _ _ hnd2 hb2 v x y hmem

/-- C7 witness: applying `..T` without clearing to a grid holding C A T leaves
the first cell at C and writes T into the third. -/
theorem partial_write_policy_witness :
    (getCell (exit_room (apply_answer wGac wRoomCat "1a" "..T" false 0)).cells 0 0
      = if false || ("" != "") then some "" else getCell wRoomCat.cells 0 0)
    ∧ (getCell (exit_room (apply_answer wGac wRoomCat "1a" "..T" false 0)).cells 2 0
      = if false || ("T" != "") then some "T" else getCell wRoomCat.cells 2 0) :=
  ⟨partial_write_policy wGac wRoomCat "1a" "..T" false 0 1 'a' ["", "", "T"]
      (by decide) (by decide) (by decide) (by decide) (by decide) "" 0 0 (by decide),
    partial_write_policy wGac wRoomCat "1a" "..T" false 0 1 'a' ["", "", "T"]
      (by decide) (by decide) (by decide) (by decide) (by decide) "T" 2 0 (by decide)⟩

/-- C5: after a non-rejected `apply_answer` (and after every
`clear_incorrect_cells`), every across and down clue's filled flag equals the
recomputation "all resolved cells of that clue are non-blank" over the
post-operation grid. -/
theorem filled_flags_recomputed (gac : Puzzle → Int → Char → List (Nat × Nat)) (room : Room)
    (clue answer : String) (allow_clearing : Bool) (now : Int)
    (num : Int) (direction : Char) (vals : List String)
    (hc : parse_clue clue = some (num, direction))
    (ha : parse_answer answer = some vals)
    (hlen : vals.length = (gac room.puzzle num direction).length) :
    (∀ n ∈ room.puzzle.across_clues.map Prod.fst,
      lookupAssoc (exit_room (apply_answer gac room clue answer allow_clearing now)).across_clues_filled n
        = some (allCellsNonBlank
            (exit_room (apply_answer gac room clue answer allow_clearing now)).cells
            (gac room.puzzle n 'a')))
    ∧ (∀ n ∈ room.puzzle.down_clues.map Prod.fst,
      lookupAssoc (exit_room (apply_answer gac room clue answer allow_clearing now)).down_clues_filled n
        = some (allCellsNonBlank
            (exit_room (apply_answer gac room clue answer allow_clearing now)).cells
            (gac room.puzzle n 'd')))
    ∧ (∀ n ∈ room.puzzle.across_clues.map Prod.fst,
      lookupAssoc (clear_incorrect_cells gac room).across_clues_filled n
        = some (allCellsNonBlank (clear_incorrect_cells gac room).cells (gac room.puzzle n 'a')))
    ∧ (∀ n ∈ room.puzzle.down_clues.map Prod.fst,
      lookupAssoc (clear_incorrect_cells gac room).down_clues_filled n
        = some (allCellsNonBlank (clear_incorrect_cells gac room).cells (gac room.puzzle n 'd'))) := by
  have hrw := apply_answer_parsed gac room clue answer allow_clearing now num direction vals hc ha
  have hfields := exit_room_core_fields gac room num direction vals allow_clearing now hlen
  refine ⟨?_, ?_, ?_, ?_⟩
  · intro n hn
    rw [hrw, hfields.1, hfields.2.1]
    exact lookup_recompute_mem _ _ _ _ _ hn
  · intro n hn
    rw [hrw, hfields.1, hfields.2.2]
    exact lookup_recompute_mem _ _ _ _ _ hn
  · intro n hn
    rw [clear_incorrect_cells_across]
    exact lookup_recompute_mem _ _ _ _ _ hn
  · intro n hn
    rw [clear_incorrect_cells_down]
    exact lookup_recompute_mem _ _ _ _ _ hn

/-- C5 witness: the across flag of clue 1 after a concrete application equals
its recomputation from the resulting grid. -/
theorem filled_flags_recomputed_witness :
    lookupAssoc (exit_room (apply_answer wGac wRoomCat "1a" "..T" true 0)).across_clues_filled 1
      = some (allCellsNonBlank (exit_room (apply_answer wGac wRoomCat "1a" "..T" true 0)).cells
          (wGac wRoomCat.puzzle 1 'a')) :=
  (filled_flags_recomputed wGac wRoomCat "1a" "..T" true 0 1 'a' ["", "", "T"]
      (by decide) (by decide) (by decide)).1 1 (by decide)

/-- C6: the four-state toggle table of `play_pause`: created/paused move to
playing recording the start time and leaving the accumulated total unchanged;
playing moves to paused adding the floor of the elapsed whole seconds and
clearing the start time; complete is a terminal no-op; and toggling at t0 then
at t0 + 90s from a fresh session accumulates exactly 90 seconds. -/
theorem play_pause_table (room : Room) (now : Int) :
    (room.play_pause_state = "created" →
      play_pause room now
        = some { room with play_pause_state := "playing", last_start_time := some now })
    ∧ (room.play_pause_state = "paused" →
      play_pause room now
        = some { room with play_pause_state := "playing", last_start_time := some now })
    ∧ (∀ t, room.play_pause_state = "playing" → room.last_start_time = some t → t ≤ now →
      play_pause room now
        = some { room with
            play_pause_state := "paused",
            last_start_time := none,
            total_time_secs := room.total_time_secs + Int.fdiv (now - t) 1000000 })
    ∧ (room.play_pause_state = "complete" → play_pause room now = some room)
    ∧ (room.play_pause_state = "created" → room.total_time_secs = 0 →
      ∃ r2, ((play_pause room now).bind (fun r1 => play_pause r1 (now + 90000000))) = some r2
        ∧ r2.total_time_secs = 90 ∧ r2.last_start_time = none
        ∧ r2.play_pause_state = "paused") := by
  have hplay : ∀ r : Room, r.play_pause_state = "created" →
      play_pause r now = some { r with
        play_pause_state := "playing",
        last_start_time := some now } := by
    intro r h
    unfold play_pause
    rw [h]
    rw [if_pos (by decide)]
  refine ⟨hplay room, ?_, ?_, ?_, ?_⟩
  · intro h
    unfold play_pause
    rw [h]
    rw [if_pos (by decide)]
  · intro t h hl hle
    unfold play_pause
    rw [h]
    rw [if_neg (by decide), if_pos (by decide), hl]
    show (some { room with
        play_pause_state := "paused",
        last_start_time := none,
        total_time_secs := room.total_time_secs + elapsedSecs now t } : Option Room)
      = some { room with
        play_pause_state := "paused",
        last_start_time := none,
        total_time_secs := room.total_time_secs + Int.fdiv (now - t) 1000000 }
    rw [show elapsedSecs now t = Int.fdiv (now - t) 1000000 from elapsedSecs_eq_fdiv hle]
  · intro h
    unfold play_pause
    rw [h]
    rw [if_neg (by decide), if_neg (by decide)]
  · intro h htot
    have h90 : elapsedSecs (now + 90000000) now = 90 := by
      unfold elapsedSecs
      rw [show now + 90000000 - now = (90000000 : Int) by omega]
      rfl
    refine ⟨{ room with
        play_pause_state := "paused",
        last_start_time := none,
        total_time_secs := room.total_time_secs + elapsedSecs (now + 90000000) now },
      ?_, ?_, rfl, rfl⟩
    · rw [hplay room h]
      rw [show (some { room with
            play_pause_state := "playing",
            last_start_time := some now }).bind
            (fun r1 => play_pause r1 (now + 90000000))
          = play_pause { room with
              play_pause_state := "playing",
              last_start_time := some now } (now + 90000000) from rfl]
      unfold play_pause
      rw [show ({ room with
            play_pause_state := "playing",
            last_start_time := some now } : Room).play_pause_state = "playing" from rfl]
      rw [if_neg (by decide), if_pos (by decide)]
    · rw [show ({ room with
          play_pause_state := "paused",
          last_start_time := none,
          total_time_secs := room.total_time_secs + elapsedSecs (now + 90000000) now }
            : Room).total_time_secs
          = room.total_time_secs + elapsedSecs (now + 90000000) now from rfl]
      rw [htot, h90]
      omega

/-- C6 witness: toggling a fresh room starts it playing; a second toggle 90
seconds later pauses it with exactly 90 accumulated seconds. -/
theorem play_pause_table_witness :
    (play_pause wRoomCreated 100
      = some { wRoomCreated with play_pause_state := "playing", last_start_time := some 100 })
    ∧ ∃ r2, ((play_pause wRoomCreated 100).bind (fun r1 => play_pause r1 (100 + 90000000)))
        = some r2 ∧ r2.total_time_secs = 90 ∧ r2.last_start_time = none
        ∧ r2.play_pause_state = "paused" :=
  ⟨(play_pause_table wRoomCreated 100).1 rfl,
    (play_pause_table wRoomCreated 100).2.2.2.2 rfl rfl⟩

/-- C2 counter-evidence: a paused room (so, by the data-model invariant,
`last_start_time` is absent) that is one correct letter away from completion
makes `apply_answer` reach the completion branch, where `now - last_start_time`
raises a `TypeError`: the engine does raise an unrecoverable fault on a
well-typed, invariant-satisfying input. -/
theorem apply_answer_paused_completion_raises :
    bugRoom.play_pause_state = "paused"
    ∧ bugRoom.last_start_time = none
    ∧ isError (apply_answer bugGac bugRoom "1a" "A" true 0) = true :=
  ⟨rfl, rfl, by decide⟩

/-- C3 (amended): `parse_clue` accepts a digit string with a trailing
direction letter in either case under surrounding whitespace, returning the
number and the lowercased direction; and in general it succeeds exactly on the
strings whose stripped form ends in a direction letter and whose remaining
leading portion is accepted by Python `int` — which also admits an optional
sign, underscores between digits, and further whitespace — rather than only on
plain non-negative digit strings. -/
theorem parse_clue_grammar :
    (∀ (ws1 ws2 : List Char) (n : Nat) (c : Char),
      (∀ a ∈ ws1, a.isWhitespace = true) → (∀ a ∈ ws2, a.isWhitespace = true) →
      (c = 'a' ∨ c = 'A' ∨ c = 'd' ∨ c = 'D') →
      parse_clue (String.mk (ws1 ++ (natToDigits n ++ [c]) ++ ws2))
        = some (Int.ofNat n, c.toLower))
    ∧ (∀ (cs : List Char) (n : Int) (d : Char),
      parse_clue (String.mk cs) = some (n, d) ↔
        ∃ front c, stripChars cs = front ++ [c] ∧ pyIntChars front = some n ∧
          c.toLower = d ∧ (d = 'a' ∨ d = 'd')) := by
  constructor
  · exact fun ws1 ws2 n c h1 h2 hc => parse_clue_canonical ws1 ws2 n c h1 h2 hc
  · intro cs n d
    exact parse_clue_chars_iff cs n d

/-- C3 witness: a canonical whitespace/case variant parses to its number and
lowercased direction. -/
theorem parse_clue_grammar_witness :
    parse_clue (String.mk ([' '] ++ (natToDigits 12 ++ ['A']) ++ [' ']))
      = some (Int.ofNat 12, 'a') :=
  parse_clue_grammar.1 [' '] [' '] 12 'A' (by decide) (by decide) (by decide)

/-- C3 counterexample: the claim says every string whose leading portion is
not a valid non-negative integer fails, but `parse_clue "-3a"` succeeds with
the negative number -3, because Python `int` accepts a sign. -/
theorem parse_clue_accepts_signed : parse_clue "-3a" = some (-3, 'a') := by decide

/-- C8: the three reference inputs of the answer grammar: a parenthesized
rebus group becomes one multi-character entry, a dot outside a group becomes
an empty entry, and whitespace is skipped entirely. -/
theorem parse_answer_reference_inputs :
    parse_answer "(red)velvet" = some ["red", "v", "e", "l", "v", "e", "t"]
    ∧ parse_answer "....s" = some ["", "", "", "", "s"]
    ∧ parse_answer "red velvet" = some ["r", "e", "d", "v", "e", "l", "v", "e", "t"] :=
  ⟨by decide, by decide, by decide⟩

/-- C9: serializing a session snapshot to its JSON value and decoding it back
is the identity: the string-keyed filled maps decode back to integer keys, an
absent `last_start_time` stays absent and a present one round-trips through
its rendered form, and the puzzle round-trips through its dict form. -/
theorem room_json_round_trip (room : Room) :
    Room.from_json (Room.to_json room) = some room :=
  Room.from_json_to_json room

/-- C10: `parse_answer` is total: every input string, including stray or
unclosed parentheses and the empty string, yields a value list without any
fault — the in-group append never sees an empty accumulator because a group
open always appends a fresh entry first. -/
theorem parse_answer_total (s : String) : ∃ l, parse_answer s = some l :=
  parse_answer_isSome s
